import Mathlib

/-!
Verification development for the `client` package of shkmv/httplib
(src/client/client.go): a shallow embedding in Lean 4 of the retry policy
evaluator, the backoff calculator, the health-aware balancer, and the
attempt preparer, together with theorems settling the frozen claims.

Modelling conventions:
* Go `int`/`int64` values are modelled as `Int` (with explicit 64-bit
  wrapping where overflow can occur), `time.Duration` as `Int` nanoseconds,
  `time.Time` as `Nat` nanoseconds.
* Go maps are modelled as total functions with the zero-value default
  (`String → Nat` for `failures`, `String → Option Nat` for `unhealthyTil`).
* `rand.Float64()` is modelled as an explicit parameter `r : ℚ` with
  `0 ≤ r < 1`; float64 arithmetic is modelled as exact rational arithmetic
  (exact at every concrete input cited below).
* Strings are processed through their character lists so that every
  definition reduces in the kernel.
-/

namespace Httplib

/-- Models Go `strings.ToUpper` restricted to ASCII (HTTP methods are ASCII). -/
def toUpperStr (s : String) : String := String.mk (s.data.map Char.toUpper)

/-- Go error classification relevant to `Client.shouldRetry`
(src/client/client.go:233-257): `errors.Is(err, context.Canceled)`,
`errors.Is(err, context.DeadlineExceeded)`, `errors.As(err, &netErr)`,
`isConnRefused`, `isNoSuchHost`, or any other error. -/
inductive GoErr where
  | canceled
  | deadlineExceeded
  | netErr
  | connRefused
  | noSuchHost
  | other
deriving DecidableEq, Repr

/-- `RetryPolicy` from src/client/client.go:26-34.  The Go maps
`RetryOnStatuses : map[int]bool` and `RetryOnMethods : map[string]bool`
are modelled as their (total, zero-value-default) lookup functions. -/
structure RetryPolicy where
  MaxAttempts : Int
  RetryOnStatuses : Int → Bool
  RetryOnConnectionErrors : Bool
  RetryOnMethods : String → Bool
  InitialBackoff : Int
  MaxBackoff : Int
  BackoffJitterFraction : ℚ

/-- `DefaultRetryPolicy` from src/client/client.go:37-52. -/
def DefaultRetryPolicy : RetryPolicy where
  MaxAttempts := 3
  RetryOnStatuses := fun c => c == 429 || c == 500 || c == 502 || c == 503 || c == 504
  RetryOnConnectionErrors := true
  RetryOnMethods := fun m => m == "GET" || m == "HEAD" || m == "OPTIONS" || m == "DELETE"
  InitialBackoff := 100000000
  MaxBackoff := 2000000000
  BackoffJitterFraction := 1/2

/-- `Client.retryOnMethod` from src/client/client.go:257:
`c.retry.RetryOnMethods[strings.ToUpper(m)]`. -/
def retryOnMethod (p : RetryPolicy) (m : String) : Bool :=
  p.RetryOnMethods (toUpperStr m)

/-- `Client.shouldRetry` from src/client/client.go:233-255.  The response is
its status code (`Option Int`), the error its classification (`Option GoErr`);
the request contributes only its method. -/
def shouldRetry (p : RetryPolicy) (method : String) (resp : Option Int)
    (err : Option GoErr) (attempts : Int) : Bool :=
  if attempts ≥ max 1 p.MaxAttempts then false
  else
    match err with
    | some e =>
      if e = GoErr.canceled ∨ e = GoErr.deadlineExceeded then false
      else if p.RetryOnConnectionErrors ∧
          (e = GoErr.netErr ∨ e = GoErr.connRefused ∨ e = GoErr.noSuchHost) then
        retryOnMethod p method
      else false
    | none =>
      match resp with
      | some code => if p.RetryOnStatuses code then retryOnMethod p method else false
      | none => false

/-- Models the 64-bit wrap-around of Go `int64` arithmetic on overflow
(`time.Duration` is an `int64` of nanoseconds). -/
def wrap64 (x : Int) : Int := (x + 2 ^ 63) % 2 ^ 64 - 2 ^ 63

/-- Go `1 << attempt` at type `time.Duration`: a shift count of 64 or more
produces 0, `1 << 63` wraps to the minimal int64. -/
def goShlOne (a : Int) : Int := if a ≥ 64 then 0 else wrap64 (2 ^ a.toNat)

/-- Truncation of a rational toward zero, modelling Go's float64→int64
conversion `time.Duration(f)`. -/
def ratTrunc (q : ℚ) : Int := if 0 ≤ q then ⌊q⌋ else ⌈q⌉

/-- `backoffWithJitter` from src/client/client.go:273-284.  `r` is the value
returned by `rand.Float64()` (uniform in `[0,1)`), passed explicitly;
float64 arithmetic is modelled as exact rational arithmetic. -/
def backoffWithJitter (initial mx : Int) (jitterFrac r : ℚ) (attempt : Int) : Int :=
  let a := if attempt < 0 then 0 else attempt
  let d0 := wrap64 (initial * goShlOne a)
  let d1 := if d0 > mx then mx else d0
  if 0 < jitterFrac then
    let jit := (r * 2 - 1) * jitterFrac
    let d2 := ratTrunc ((d1 : ℚ) * (1 + jit))
    if d2 < 0 then 0 else d2
  else d1

/-- Splits a character list at the first occurrence of `pat`, returning the
text before and after it (used to model `net/url.Parse` at the `"://"` and
`"?"` separators). -/
def splitAtSubstr (pat : List Char) : List Char → Option (List Char × List Char)
  | [] => if pat = [] then some ([], []) else none
  | c :: rest =>
    if pat.isPrefixOf (c :: rest) then some ([], (c :: rest).drop pat.length)
    else
      match splitAtSubstr pat rest with
      | some (pre, post) => some (c :: pre, post)
      | none => none

/-- `net/url.URL` restricted to the fields the client touches
(`Scheme`, `Host`, `Path`, `RawPath`, `RawQuery`); `IsAbs()` is
`scheme ≠ ""`. -/
structure URL where
  scheme : String
  host : String
  path : String
  rawPath : String
  rawQuery : String
deriving DecidableEq, Repr

/-- Modelled from the documented behaviour of `net/url.Parse` (the Go
standard library, outside this repository), restricted to the URL shapes the
client uses: `scheme://host[/path][?query]`, or a scheme-less
path-with-optional-query for which Go leaves `Host` empty.  Escaping is not
modelled, so `RawPath` is always empty (as in Go whenever the escaped and
unescaped paths coincide); parse errors cannot occur for these shapes. -/
def parseURL (s : String) : URL :=
  match splitAtSubstr [':', '/', '/'] s.data with
  | none =>
    match splitAtSubstr ['?'] s.data with
    | none => { scheme := "", host := "", path := s, rawPath := "", rawQuery := "" }
    | some (p, q) =>
      { scheme := "", host := "", path := String.mk p, rawPath := "", rawQuery := String.mk q }
  | some (sch, rest) =>
    let hostCs := rest.takeWhile (fun c => c ≠ '/')
    let after := rest.dropWhile (fun c => c ≠ '/')
    match splitAtSubstr ['?'] after with
    | none =>
      { scheme := String.mk sch, host := String.mk hostCs,
        path := String.mk after, rawPath := "", rawQuery := "" }
    | some (p, q) =>
      { scheme := String.mk sch, host := String.mk hostCs,
        path := String.mk p, rawPath := "", rawQuery := String.mk q }

/-- `hostOf` from src/client/client.go:365-370 (the parse-error branch is
vacuous for the modelled parser). -/
def hostOf (base : String) : String :=
  let u := parseURL base
  if u.host ≠ "" then u.host else base

/-- `Endpoint` from src/client/client.go:20-23. -/
structure Endpoint where
  BaseURL : String
  DC : String
deriving DecidableEq, Repr

/-- `balancer` from src/client/client.go:290-297.  The Go maps `failures`
and `unhealthyTil` are modelled as total functions (zero-value default 0 and
`none` respectively); the mutex is irrelevant in the sequential model. -/
structure BalState where
  eps : List Endpoint
  rrAll : Nat
  rrPreferred : Nat
  failures : String → Nat
  unhealthyTil : String → Option Nat

/-- `newBalancer` from src/client/client.go:299-301. -/
def newBalancer (eps : List Endpoint) : BalState :=
  { eps := eps, rrAll := 0, rrPreferred := 0,
    failures := fun _ => 0, unhealthyTil := fun _ => none }

/-- `balancer.isHealthyHostIdx` from src/client/client.go:341-348.  `now` is
`time.Now()` in nanoseconds; the returned state carries the map mutations
(clearing an expired unhealthy window and resetting the failure counter).
`time.Now().After(until)` is the strict comparison `til < now`.  The Go
`i < 0` guard is vacuous for `Nat` indices. -/
def isHealthyHostIdx (b : BalState) (now : Nat) (i : Nat) : Bool × BalState :=
  if i < b.eps.length then
    let host := hostOf (b.eps.getD i ⟨"", ""⟩).BaseURL
    match b.unhealthyTil host with
    | none => (true, b)
    | some til =>
      if til < now then
        (true, { b with
          unhealthyTil := fun x => if x = host then none else b.unhealthyTil x,
          failures := fun x => if x = host then 0 else b.failures x })
      else (false, b)
  else (false, b)

/-- The host key `markFailure` derives from its argument
(src/client/client.go:352-355): `hostOf` is applied only when the argument
contains a `/`. -/
def failureKey (hostport : String) : String :=
  if hostport.data.contains '/' then hostOf hostport else hostport

/-- `balancer.markFailure` from src/client/client.go:350-363.  Durations are
in nanoseconds: base 500ms, cap 10s; `1 << min(5, n)` never overflows. -/
def markFailure (b : BalState) (now : Nat) (hostport : String) : BalState :=
  let host := failureKey hostport
  let n := b.failures host + 1
  let d0 := 500000000 * 2 ^ (min 5 n)
  let d := if d0 > 10000000000 then 10000000000 else d0
  { b with
    failures := fun x => if x = host then n else b.failures x,
    unhealthyTil := fun x => if x = host then some (now + d) else b.unhealthyTil x }

/-- `balancer.indicesWithDC` from src/client/client.go:335-339. -/
def indicesWithDC (b : BalState) (dc : String) : List Nat :=
  (List.range b.eps.length).filter (fun i => (b.eps.getD i ⟨"", ""⟩).DC = dc)

/-- The preferred-DC loop of `balancer.currentBaseURL`
(src/client/client.go:311-316); the fuel argument is the loop bound
`len(indices)`. -/
def prefLoop (now : Nat) (indices : List Nat) : Nat → BalState → Option String × BalState
  | 0, b => (none, b)
  | k + 1, b =>
    let idx := indices.getD (b.rrPreferred % indices.length) 0
    let b1 := { b with rrPreferred := b.rrPreferred + 1 }
    match isHealthyHostIdx b1 now idx with
    | (true, b2) => (some ((b2.eps.getD idx ⟨"", ""⟩).BaseURL), b2)
    | (false, b2) => prefLoop now indices k b2

/-- The fallback loop of `balancer.currentBaseURL`
(src/client/client.go:319-323); the fuel argument is the loop bound
`len(b.eps)`. -/
def allLoop (now : Nat) : Nat → BalState → Option String × BalState
  | 0, b => (none, b)
  | k + 1, b =>
    let idx := b.rrAll % max 1 b.eps.length
    let b1 := { b with rrAll := b.rrAll + 1 }
    match isHealthyHostIdx b1 now idx with
    | (true, b2) => (some ((b2.eps.getD idx ⟨"", ""⟩).BaseURL), b2)
    | (false, b2) => allLoop now k b2

/-- `balancer.currentBaseURL` from src/client/client.go:304-327. -/
def currentBaseURL (b : BalState) (now : Nat) (preferredDC : String) : String × BalState :=
  let pref :=
    if preferredDC ≠ "" then
      let indices := indicesWithDC b preferredDC
      if 0 < indices.length then prefLoop now indices indices.length b
      else (none, b)
    else (none, b)
  match pref with
  | (some s, b1) => (s, b1)
  | (none, b1) =>
    match allLoop now b1.eps.length b1 with
    | (some s, b2) => (s, b2)
    | (none, b2) =>
      if 0 < b2.eps.length then
        ((b2.eps.getD (b2.rrAll % b2.eps.length) ⟨"", ""⟩).BaseURL, b2)
      else ("", b2)

/-- `balancer.nextHost` from src/client/client.go:330-333. -/
def nextHost (b : BalState) (preferredDC : String) : BalState :=
  if preferredDC ≠ "" ∧ 0 < (indicesWithDC b preferredDC).length then
    { b with rrPreferred := b.rrPreferred + 1 }
  else { b with rrAll := b.rrAll + 1 }

/-- A two-endpoint balancer state in which both hosts are unhealthy until
t = 100ns (used at clock reading 50ns). -/
def balTwoDown : BalState :=
  { eps := [⟨"http://a", ""⟩, ⟨"http://b", ""⟩], rrAll := 0, rrPreferred := 0,
    failures := fun _ => 0,
    unhealthyTil := fun h => if h = "a" then some 100
      else if h = "b" then some 100 else none }

/-- Splits a character list into `/`-separated segments
(like Go `strings.Split(s, "/")`). -/
def splitSegs : List Char → List (List Char)
  | [] => [[]]
  | c :: rest =>
    if c = '/' then [] :: splitSegs rest
    else
      match splitSegs rest with
      | [] => [[c]]
      | s :: ss => (c :: s) :: ss

/-- Joins segments with `/` (left inverse of `splitSegs`). -/
def joinSegs : List (List Char) → List Char
  | [] => []
  | [s] => s
  | s :: ss => s ++ '/' :: joinSegs ss

/-- RFC 3986 `remove_dot_segments` on a segment list: `.` is dropped, `..`
pops the previous output segment. -/
def dotSegs (acc : List (List Char)) : List (List Char) → List (List Char)
  | [] => acc
  | s :: rest =>
    if s = ['.'] then dotSegs acc rest
    else if s = ['.', '.'] then dotSegs acc.dropLast rest
    else dotSegs (acc ++ [s]) rest

/-- `base[:strings.LastIndex(base, "/")+1]`: everything up to and including
the last slash (empty when there is no slash). -/
def lastSlashPrefix (base : List Char) : List Char :=
  (base.reverse.dropWhile (fun c => c ≠ '/')).reverse

/-- Modelled from the documented behaviour of `net/url`'s `resolvePath`
(Go standard library, outside this repository): merge the reference path
against the base path (RFC 3986 §5.3 — a rooted reference replaces the base
path, a relative one is appended to the base's directory), remove `.` and
`..` segments, and keep a trailing slash when the final segment is a dot
segment.  The result always begins with `/`. -/
def resolvePathL (base ref : List Char) : List Char :=
  let full :=
    match ref with
    | [] => base
    | c :: _ => if c = '/' then ref else lastSlashPrefix base ++ ref
  match full with
  | [] => []
  | c :: cs =>
    let segs := if c = '/' then splitSegs cs else splitSegs full
    let lastSeg := segs.getLast?.getD []
    let out := dotSegs [] segs
    let out2 := if lastSeg = ['.'] ∨ lastSeg = ['.', '.'] then out ++ [[]] else out
    '/' :: joinSegs out2

/-- String wrapper for `resolvePathL`. -/
def resolvePath (base ref : String) : String :=
  String.mk (resolvePathL base.data ref.data)

/-- Modelled from the documented behaviour of
`net/url.(*URL).ResolveReference` (Go standard library) for the reference
shape `prepareAttempt` constructs: a URL carrying only Path, RawPath and
RawQuery (no scheme, host, user, opaque or fragment).  The result takes the
base's scheme and host, the merged path, and the reference's query — except
that a reference with an empty path and empty query inherits the base's
query.  With escaping unmodelled, `setPath` leaves `RawPath` empty. -/
def resolveReference (u ref : URL) : URL :=
  { scheme := u.scheme
    host := u.host
    path := resolvePath u.path ref.path
    rawPath := ""
    rawQuery := if ref.path = "" ∧ ref.rawQuery = "" then u.rawQuery else ref.rawQuery }

/-- `http.Request` restricted to what the client touches: method, URL,
headers, the current `Body` reader (modelled by its remaining bytes; `none`
is a nil body) and the `GetBody` hook (modelled by the bytes a fresh call
yields; `none` is a nil hook). -/
structure GoRequest where
  method : String
  url : URL
  headers : List (String × String)
  body : Option (List UInt8)
  getBody : Option (List UInt8)
deriving DecidableEq, Repr

/-- Result of one `Client.prepareAttempt` call: the attempt request on
success (`none` on error), the error message, the canonical request after
the call (Go mutates `req.Body` through the pointer; the model records the
resulting content), and the balancer state after any endpoint selection. -/
structure PrepResult where
  attempt : Option GoRequest
  err : Option String
  req : GoRequest
  bal : BalState

/-- `Client.prepareAttempt` from src/client/client.go:157-195.  `req.Clone`
copies method/URL/headers; the body branch mirrors lines 163-178: when
`GetBody` is set it supplies the attempt body, otherwise the remaining
stream is buffered and both the attempt's and the canonical request's
readers become fresh readers over the buffered bytes (`io.ReadAll` and
`GetBody` cannot fail on the modelled pure streams).  Lines 180-194 keep an
absolute URL as-is and otherwise resolve the relative URL against the
selected endpoint's base URL (`url.Parse(base)` cannot fail in the modelled
fragment). -/
def prepareAttempt (bal : BalState) (now : Nat) (preferredDC : String)
    (req : GoRequest) : PrepResult :=
  let bodyStep :=
    match req.body with
    | none => (req, req)
    | some stream =>
      match req.getBody with
      | some bs => ({ req with body := some bs }, req)
      | none => ({ req with body := some stream }, { req with body := some stream })
  let r2 := bodyStep.1
  let req1 := bodyStep.2
  if r2.url.scheme ≠ "" then
    { attempt := some r2, err := none, req := req1, bal := bal }
  else
    let sel := currentBaseURL bal now preferredDC
    if sel.1 = "" then
      { attempt := none, err := some "no endpoints configured", req := req1, bal := sel.2 }
    else
      let bu := parseURL sel.1
      let ref : URL := { scheme := "", host := "", path := r2.url.path,
                         rawPath := r2.url.rawPath, rawQuery := r2.url.rawQuery }
      { attempt := some { r2 with url := resolveReference bu ref },
        err := none, req := req1, bal := sel.2 }

/-- Iterates `prepareAttempt` the way `Client.Do` does across attempts,
threading the canonical request (mutated through its pointer in Go) and the
balancer state. -/
def prepIterate (now : Nat) (preferredDC : String) :
    Nat → GoRequest × BalState → GoRequest × BalState
  | 0, s => s
  | n + 1, (req, bal) =>
    let p := prepareAttempt bal now preferredDC req
    prepIterate now preferredDC n (p.req, p.bal)

/-- Example request with a buffered two-byte body and a relative URL. -/
def reqBody : GoRequest :=
  { method := "POST", url := ⟨"", "", "/x", "", ""⟩,
    headers := [], body := some [1, 2], getBody := none }

/-- Example request with an absolute URL. -/
def reqAbs : GoRequest :=
  { method := "GET", url := ⟨"https", "x.example", "/p", "", ""⟩,
    headers := [], body := none, getBody := none }

/-- Example relative request with a rooted, dot-free path and a query. -/
def reqRel : GoRequest :=
  { method := "GET", url := ⟨"", "", "/p", "", "q=1"⟩,
    headers := [], body := none, getBody := none }

/-- Example relative request whose path `"x"` is not rooted. -/
def reqNonRooted : GoRequest :=
  { method := "GET", url := ⟨"", "", "x", "", ""⟩,
    headers := [], body := none, getBody := none }

/-- Example request whose `GetBody` hook is set and yields `[1, 2]` while the
current body stream holds `[9]` (reachable: the caller may install any hook,
and a partially consumed stream differs from what the hook replays). -/
def reqHook : GoRequest :=
  { method := "POST", url := ⟨"https", "x.example", "/p", "", ""⟩,
    headers := [], body := some [9], getBody := some [1, 2] }


theorem shouldRetry_true_iff (p : RetryPolicy) (m : String) (resp : Option Int)
    (err : Option GoErr) (a : Int) :
    shouldRetry p m resp err a = true ↔
      (a < max 1 p.MaxAttempts ∧
        ((∃ e, err = some e ∧
            (e = GoErr.netErr ∨ e = GoErr.connRefused ∨ e = GoErr.noSuchHost) ∧
            p.RetryOnConnectionErrors = true)
          ∨ (err = none ∧ ∃ s, resp = some s ∧ p.RetryOnStatuses s = true))
        ∧ retryOnMethod p m = true) := by
  unfold shouldRetry
  by_cases hA : a ≥ max 1 p.MaxAttempts
  · simp [hA]
    omega
  · have hA' : a < max 1 p.MaxAttempts := by omega
    simp only [if_neg hA]
    cases err with
    | none =>
      cases resp with
      | none => simp [hA']
      | some s =>
        by_cases hS : p.RetryOnStatuses s = true
        · simp [hS, hA']
        · simp only [Bool.not_eq_true] at hS
          simp [hS, hA']
    | some e =>
      cases e <;> by_cases hC : p.RetryOnConnectionErrors = true <;>
        simp_all [hA']

/-- C1: `shouldRetry` returns true on a transport/connection-level error only
if `RetryOnConnectionErrors` is set and the method passes the policy's method
test, and on a returned response only if the status is in `RetryOnStatuses`
and the method passes; in all other outcomes it returns false (characterised
by the iff).  Under the default policy a POST receiving 503 is never retried
while a GET receiving 503 is retried (below the attempt limit). -/
theorem shouldRetry_retry_conditions :
    (∀ (p : RetryPolicy) (m : String) (resp : Option Int) (err : Option GoErr) (a : Int),
      shouldRetry p m resp err a = true ↔
        (a < max 1 p.MaxAttempts ∧
          ((∃ e, err = some e ∧
              (e = GoErr.netErr ∨ e = GoErr.connRefused ∨ e = GoErr.noSuchHost) ∧
              p.RetryOnConnectionErrors = true)
            ∨ (err = none ∧ ∃ s, resp = some s ∧ p.RetryOnStatuses s = true))
          ∧ retryOnMethod p m = true))
    ∧ (∀ a : Int, shouldRetry DefaultRetryPolicy "POST" (some 503) none a = false)
    ∧ (∀ a : Int, a < 3 → shouldRetry DefaultRetryPolicy "GET" (some 503) none a = true) := by
  refine ⟨shouldRetry_true_iff, ?_, ?_⟩
  · intro a
    by_cases h : a ≥ max 1 DefaultRetryPolicy.MaxAttempts
    · simp [shouldRetry, h]
    · have h1 : retryOnMethod DefaultRetryPolicy "POST" = false := by decide
      have h2 : DefaultRetryPolicy.RetryOnStatuses 503 = true := by decide
      simp [shouldRetry, h, h1, h2]
  · intro a ha
    have h : ¬ (a ≥ max 1 DefaultRetryPolicy.MaxAttempts) := by
      have : DefaultRetryPolicy.MaxAttempts = 3 := by decide
      omega
    have h1 : retryOnMethod DefaultRetryPolicy "GET" = true := by decide
    have h2 : DefaultRetryPolicy.RetryOnStatuses 503 = true := by decide
    simp [shouldRetry, h, h1, h2]

theorem shouldRetry_retry_conditions_witness :
    shouldRetry DefaultRetryPolicy "GET" (some 503) none 1 = true ∧
    shouldRetry DefaultRetryPolicy "POST" (some 503) none 1 = false :=
  ⟨shouldRetry_retry_conditions.2.2 1 (by decide),
   shouldRetry_retry_conditions.2.1 1⟩

/-- C2: `shouldRetry` returns false whenever `attempts ≥ MaxAttempts` (for the
attempt counts the dispatch loop produces, which are always ≥ 1), and returns
false whenever the error is a context cancellation or deadline-exceeded
signal, regardless of every other policy field. -/
theorem shouldRetry_exhaustion_and_cancellation :
    ∀ (p : RetryPolicy) (m : String) (resp : Option Int) (err : Option GoErr) (a : Int),
      (1 ≤ a → p.MaxAttempts ≤ a → shouldRetry p m resp err a = false)
      ∧ ((err = some GoErr.canceled ∨ err = some GoErr.deadlineExceeded) →
          shouldRetry p m resp err a = false) := by
  intro p m resp err a
  constructor
  · intro h1 h2
    have h : a ≥ max 1 p.MaxAttempts := by omega
    simp [shouldRetry, h]
  · intro h
    by_cases hA : a ≥ max 1 p.MaxAttempts
    · simp [shouldRetry, hA]
    · rcases h with h | h <;> subst h <;> simp [shouldRetry, hA]

theorem shouldRetry_exhaustion_and_cancellation_witness :
    shouldRetry DefaultRetryPolicy "GET" (some 503) none 3 = false ∧
    shouldRetry DefaultRetryPolicy "GET" none (some GoErr.canceled) 1 = false :=
  ⟨(shouldRetry_exhaustion_and_cancellation _ "GET" (some 503) none 3).1
      (by decide) (by decide),
   (shouldRetry_exhaustion_and_cancellation _ "GET" none (some GoErr.canceled) 1).2
      (Or.inl rfl)⟩


theorem wrap64_eq_self (x : Int) (h1 : -(2 ^ 63) ≤ x) (h2 : x < 2 ^ 63) :
    wrap64 x = x := by
  unfold wrap64
  have e : ((2:Int) ^ 64) = 2 ^ 63 * 2 := by norm_num
  have h3 : 0 ≤ x + 2 ^ 63 := by linarith
  have h4 : x + 2 ^ 63 < 2 ^ 64 := by rw [e]; linarith
  rw [Int.emod_eq_of_lt h3 h4]
  omega

/-- C5 counterexample: with `initial = 3ns`, `max = 2s`, `jitterFraction = 1/2`
and random sample 0, the code returns 1ns (`time.Duration(3.0 * 0.5)`
truncates 1.5 toward zero), which is not `3*(1+u)` for any `u ∈ [-1/2, 1/2]`
— the claim's "equal to min(initial*2^i, max) multiplied by (1+u)" fails. -/
theorem backoffWithJitter_truncates_counterexample :
    backoffWithJitter 3 2000000000 (1/2) 0 0 = 1 ∧
    ¬ ∃ u : ℚ, -(1/2) ≤ u ∧ u ≤ 1/2 ∧ ((1 : ℚ) = 3 * (1 + u)) := by
  constructor
  · norm_num [backoffWithJitter, goShlOne, wrap64, ratTrunc]
  · rintro ⟨u, hu1, hu2, hu3⟩
    linarith

theorem backoffWithJitter_closed (initial mx : Int) (j r : ℚ) (i : Int)
    (h0 : 0 ≤ i) (h62 : i ≤ 62) (hinit : 0 ≤ initial)
    (hov : initial * 2 ^ i.toNat < 2 ^ 63) :
    backoffWithJitter initial mx j r i =
      (if 0 < j then
        (if ratTrunc (((min (initial * 2 ^ i.toNat) mx : Int) : ℚ) * (1 + (r * 2 - 1) * j)) < 0
         then 0
         else ratTrunc (((min (initial * 2 ^ i.toNat) mx : Int) : ℚ) * (1 + (r * 2 - 1) * j)))
       else min (initial * 2 ^ i.toNat) mx) := by
  have hnotneg : ¬ (i < 0) := by omega
  have hpow : (0:Int) ≤ initial * 2 ^ i.toNat :=
    mul_nonneg hinit (by positivity)
  have hshl : goShlOne i = 2 ^ i.toNat := by
    have h64 : ¬ (i ≥ 64) := by omega
    have hlt : (2:Int) ^ i.toNat < 2 ^ 63 := by
      have hle : i.toNat ≤ 62 := by omega
      calc (2:Int) ^ i.toNat ≤ 2 ^ 62 :=
            pow_le_pow_right₀ (by norm_num) hle
        _ < 2 ^ 63 := by norm_num
    have hnn : (0:Int) ≤ 2 ^ i.toNat := by positivity
    simp only [goShlOne, if_neg h64]
    exact wrap64_eq_self _ (by linarith) hlt
  have hd0 : wrap64 (initial * goShlOne i) = initial * 2 ^ i.toNat := by
    rw [hshl]
    exact wrap64_eq_self _ (by linarith) hov
  have hd1 : (if (initial * 2 ^ i.toNat) > mx then mx else initial * 2 ^ i.toNat)
      = min (initial * 2 ^ i.toNat) mx := by
    rcases le_or_lt (initial * 2 ^ i.toNat) mx with h | h
    · rw [if_neg (by omega), min_eq_left h]
    · rw [if_pos h, min_eq_right h.le]
  simp only [backoffWithJitter, if_neg hnotneg, hd0, hd1]

/-- C5 (amended): in the int64-exact range, `backoffWithJitter` returns the
truncation toward zero of `min(initial * 2^attempt, max) * (1 + u)` for
`u = (2r-1)·jitterFraction ∈ [-jitterFraction, jitterFraction]`, clamped to
be non-negative; `backoff(0,100ms,2s,0.5)` lies in `[50ms,150ms]` and
`backoff(5,100ms,2s,0)` is exactly 2s. -/
theorem backoffWithJitter_formula :
    (∀ (initial mx : Int) (j r : ℚ) (i : Int),
      0 ≤ i → i ≤ 62 → 0 ≤ initial → initial * 2 ^ i.toNat < 2 ^ 63 →
      0 ≤ mx → 0 ≤ j → j ≤ 1 → 0 ≤ r → r < 1 →
      ∃ u : ℚ, -j ≤ u ∧ u ≤ j ∧
        backoffWithJitter initial mx j r i =
          max 0 (ratTrunc (((min (initial * 2 ^ i.toNat) mx : Int) : ℚ) * (1 + u))))
    ∧ (∀ r : ℚ, 0 ≤ r → r < 1 →
        50000000 ≤ backoffWithJitter 100000000 2000000000 (1/2) r 0 ∧
        backoffWithJitter 100000000 2000000000 (1/2) r 0 ≤ 150000000)
    ∧ (∀ r : ℚ, backoffWithJitter 100000000 2000000000 0 r 5 = 2000000000) := by
  refine ⟨?_, ?_, ?_⟩
  · intro initial mx j r i h0 h62 hinit hov hmx hj0 hj1 hr0 hr1
    have hpow : (0:Int) ≤ initial * 2 ^ i.toNat :=
      mul_nonneg hinit (by positivity)
    have hminpos : (0:Int) ≤ min (initial * 2 ^ i.toNat) mx := le_min hpow hmx
    rcases hj0.eq_or_lt with hj | hj
    · -- jitterFrac = 0: no jitter applied, result is the capped base.
      refine ⟨0, by linarith, by linarith, ?_⟩
      have heq : ratTrunc (((min (initial * 2 ^ i.toNat) mx : Int) : ℚ) * (1 + 0)) =
          min (initial * 2 ^ i.toNat) mx := by
        rw [add_zero, mul_one]
        unfold ratTrunc
        rw [if_pos (by exact_mod_cast hminpos), Int.floor_intCast]
      rw [heq, max_eq_right hminpos,
        backoffWithJitter_closed _ _ _ _ _ h0 h62 hinit hov,
        if_neg (by rw [← hj]; exact lt_irrefl 0)]
    · -- jitterFrac > 0: jitter branch, truncated and clamped.
      refine ⟨(r * 2 - 1) * j, ?_, ?_, ?_⟩
      · have h1 : (-1 : ℚ) ≤ r * 2 - 1 := by linarith
        have := mul_le_mul_of_nonneg_right h1 hj0
        linarith
      · have h1 : (r * 2 - 1 : ℚ) ≤ 1 := by linarith
        have := mul_le_mul_of_nonneg_right h1 hj0
        linarith
      · rw [backoffWithJitter_closed _ _ _ _ _ h0 h62 hinit hov, if_pos hj]
        rcases le_or_lt 0 (ratTrunc (((min (initial * 2 ^ i.toNat) mx : Int) : ℚ)
            * (1 + (r * 2 - 1) * j))) with h | h
        · rw [if_neg (by omega), max_eq_right h]
        · rw [if_pos h, max_eq_left h.le]
  · intro r hr0 hr1
    have hq : ((min (100000000 * 2 ^ (0:Int).toNat) 2000000000 : Int) : ℚ)
        * (1 + (r * 2 - 1) * (1/2)) = 50000000 + 100000000 * r := by
      rw [min_eq_left (by norm_num)]
      push_cast
      ring
    have hq0 : (0:ℚ) ≤ 50000000 + 100000000 * r := by linarith
    have hfl : ratTrunc (((min (100000000 * 2 ^ (0:Int).toNat) 2000000000 : Int) : ℚ)
        * (1 + (r * 2 - 1) * (1/2))) = ⌊(50000000 + 100000000 * r : ℚ)⌋ := by
      rw [hq]; unfold ratTrunc; rw [if_pos hq0]
    have hlo : (50000000 : Int) ≤ ⌊(50000000 + 100000000 * r : ℚ)⌋ := by
      rw [Int.le_floor]; push_cast; linarith
    have hhi : ⌊(50000000 + 100000000 * r : ℚ)⌋ ≤ 150000000 := by
      have h1 : (⌊(50000000 + 100000000 * r : ℚ)⌋ : ℚ) ≤ 50000000 + 100000000 * r :=
        Int.floor_le _
      have h3 : ((⌊(50000000 + 100000000 * r : ℚ)⌋ : ℚ)) < ((150000000 : Int) : ℚ) := by
        push_cast
        linarith
      exact_mod_cast h3.le
    rw [backoffWithJitter_closed 100000000 2000000000 (1/2) r 0 (by norm_num)
        (by norm_num) (by norm_num) (by norm_num),
      if_pos (by norm_num : (0:ℚ) < 1/2), hfl, if_neg (by omega)]
    exact ⟨hlo, hhi⟩
  · intro r
    rw [backoffWithJitter_closed 100000000 2000000000 0 r 5 (by norm_num)
        (by norm_num) (by norm_num) (by decide),
      if_neg (lt_irrefl 0)]
    decide

theorem backoffWithJitter_formula_witness :
    (∃ u : ℚ, -(1/2) ≤ u ∧ u ≤ 1/2 ∧
      backoffWithJitter 100000000 2000000000 (1/2) 0 0 =
        max 0 (ratTrunc (((min (100000000 * 2 ^ (0:Int).toNat) 2000000000 : Int) : ℚ) * (1 + u))))
    ∧ (50000000 ≤ backoffWithJitter 100000000 2000000000 (1/2) 0 0 ∧
        backoffWithJitter 100000000 2000000000 (1/2) 0 0 ≤ 150000000)
    ∧ backoffWithJitter 100000000 2000000000 0 0 5 = 2000000000 :=
  ⟨backoffWithJitter_formula.1 100000000 2000000000 (1/2) 0 0 (by norm_num)
      (by norm_num) (by norm_num) (by norm_num) (by norm_num) (by norm_num)
      (by norm_num) (by norm_num) (by norm_num),
   backoffWithJitter_formula.2.1 0 (by norm_num) (by norm_num),
   backoffWithJitter_formula.2.2 0⟩


theorem markFailure_spec (b : BalState) (now : Nat) (hp : String) :
    (markFailure b now hp).failures (failureKey hp) = b.failures (failureKey hp) + 1
    ∧ (markFailure b now hp).unhealthyTil (failureKey hp) =
        some (now + min 10000000000
          (500000000 * 2 ^ (min 5 (b.failures (failureKey hp) + 1)))) := by
  have hcore : ∀ m : Nat, (if 500000000 * 2 ^ (min 5 m) > 10000000000
      then 10000000000 else 500000000 * 2 ^ (min 5 m))
      = min 10000000000 (500000000 * 2 ^ (min 5 m)) := by
    intro m
    rcases le_or_lt (500000000 * 2 ^ (min 5 m)) 10000000000 with hd | hd
    · rw [if_neg (not_lt.mpr hd), Nat.min_eq_right hd]
    · rw [if_pos hd, Nat.min_eq_left (le_of_lt hd)]
  refine ⟨by simp [markFailure], ?_⟩
  simp [markFailure, hcore]

/-- C4: each `markFailure` call on a plain host string (no `/`) increments
that host's consecutive-failure counter and sets its `unhealthyUntil` to
`now + min(10s, 500ms · 2^min(5, failures))` with `failures` the
post-increment count; after 3 consecutive failures the window is exactly 4s,
and the window never exceeds 10s for any failure count. -/
theorem markFailure_window :
    ∀ (b : BalState) (now : Nat) (h : String), h.data.contains '/' = false →
      (markFailure b now h).failures h = b.failures h + 1
      ∧ (markFailure b now h).unhealthyTil h =
          some (now + min 10000000000 (500000000 * 2 ^ (min 5 (b.failures h + 1))))
      ∧ (b.failures h = 2 → (markFailure b now h).unhealthyTil h = some (now + 4000000000))
      ∧ (∀ t, (markFailure b now h).unhealthyTil h = some t → t ≤ now + 10000000000) := by
  intro b now h hc
  have hkey : failureKey h = h := by
    unfold failureKey
    rw [hc]
    simp
  have hs := markFailure_spec b now h
  rw [hkey] at hs
  refine ⟨hs.1, hs.2, ?_, ?_⟩
  · intro h2
    rw [hs.2, h2]
    norm_num
  · intro t ht
    rw [hs.2] at ht
    have := Option.some_injective _ ht
    omega

theorem markFailure_window_witness :
    (markFailure (newBalancer []) 7 "a").failures "a" = 1
    ∧ (markFailure (newBalancer []) 7 "a").unhealthyTil "a" = some 1000000007
    ∧ (∀ t, (markFailure (newBalancer []) 7 "a").unhealthyTil "a" = some t →
        t ≤ 10000000007) := by
  have h := markFailure_window (newBalancer []) 7 "a" (by decide)
  refine ⟨h.1, ?_, ?_⟩
  · rw [h.2.1]
    norm_num [newBalancer]
  · intro t ht
    exact h.2.2.2 t ht

theorem isHealthy_false_of_unhealthy (b : BalState) (now i t : Nat)
    (hi : i < b.eps.length)
    (ht : b.unhealthyTil (hostOf (b.eps.getD i ⟨"", ""⟩).BaseURL) = some t)
    (hnt : now ≤ t) :
    isHealthyHostIdx b now i = (false, b) := by
  simp only [isHealthyHostIdx, if_pos hi, ht]
  rw [if_neg (by omega)]

/-- C8: a host's `unhealthyUntil`, once set, is monotonically non-decreasing
across consecutive `markFailure` calls (for non-decreasing clock readings),
and it is cleared — the entry deleted, the consecutive-failure counter reset
to 0, the host reported healthy — exactly when a health check finds the
current time strictly past it; a check at or before the deadline reports
unhealthy and leaves the state unchanged. -/
theorem unhealthyUntil_monotone_and_cleared :
    (∀ (b : BalState) (now1 now2 : Nat) (hp : String), now1 ≤ now2 →
      ∀ t1, (markFailure b now1 hp).unhealthyTil (failureKey hp) = some t1 →
        ∃ t2, (markFailure (markFailure b now1 hp) now2 hp).unhealthyTil (failureKey hp)
            = some t2 ∧ t1 ≤ t2)
    ∧ (∀ (b : BalState) (now i t : Nat), i < b.eps.length →
        b.unhealthyTil (hostOf (b.eps.getD i ⟨"", ""⟩).BaseURL) = some t →
        (t < now →
          (isHealthyHostIdx b now i).1 = true
          ∧ (isHealthyHostIdx b now i).2.unhealthyTil
              (hostOf (b.eps.getD i ⟨"", ""⟩).BaseURL) = none
          ∧ (isHealthyHostIdx b now i).2.failures
              (hostOf (b.eps.getD i ⟨"", ""⟩).BaseURL) = 0)
        ∧ (now ≤ t → isHealthyHostIdx b now i = (false, b))) := by
  constructor
  · intro b now1 now2 hp hle t1 ht1
    have s1 := markFailure_spec b now1 hp
    have s2 := markFailure_spec (markFailure b now1 hp) now2 hp
    rw [s1.2] at ht1
    have ht1' := Option.some_injective _ ht1
    refine ⟨_, s2.2, ?_⟩
    rw [s1.1]
    have hp2 : (2:Nat) ^ (min 5 (b.failures (failureKey hp) + 1))
        ≤ 2 ^ (min 5 (b.failures (failureKey hp) + 1 + 1)) :=
      Nat.pow_le_pow_right (by norm_num) (by omega)
    have := Nat.mul_le_mul_left 500000000 hp2
    omega
  · intro b now i t hi ht
    constructor
    · intro hlt
      simp only [isHealthyHostIdx, if_pos hi, ht]
      rw [if_pos (by omega)]
      refine ⟨rfl, ?_, ?_⟩ <;> simp
    · intro hge
      exact isHealthy_false_of_unhealthy b now i t hi ht hge

theorem unhealthyUntil_monotone_and_cleared_witness :
    (∃ t2, (markFailure (markFailure (newBalancer []) 5 "a") 6 "a").unhealthyTil
        (failureKey "a") = some t2 ∧ 1000000005 ≤ t2)
    ∧ (isHealthyHostIdx (markFailure (newBalancer [⟨"http://a", ""⟩]) 5 "a") 2000000000 0).1
        = true := by
  constructor
  · have h := (unhealthyUntil_monotone_and_cleared.1 (newBalancer []) 5 6 "a"
      (by omega) 1000000005 (by decide))
    exact h
  · have hb : (markFailure (newBalancer [⟨"http://a", ""⟩]) 5 "a").unhealthyTil
        (hostOf ((markFailure (newBalancer [⟨"http://a", ""⟩]) 5 "a").eps.getD 0
          ⟨"", ""⟩).BaseURL) = some 1000000005 := by decide
    exact ((unhealthyUntil_monotone_and_cleared.2
      (markFailure (newBalancer [⟨"http://a", ""⟩]) 5 "a") 2000000000 0 1000000005
      (by decide) hb).1 (by omega)).1

theorem allLoop_all_unhealthy (now : Nat) :
    ∀ (k : Nat) (b : BalState), 0 < b.eps.length →
      (∀ i, i < b.eps.length →
        ∃ t, b.unhealthyTil (hostOf (b.eps.getD i ⟨"", ""⟩).BaseURL) = some t ∧ now ≤ t) →
      allLoop now k b = (none, { b with rrAll := b.rrAll + k }) := by
  intro k
  induction k with
  | zero => intro b hlen hun; rfl
  | succ k ih =>
    intro b hlen hun
    have hmax : max 1 b.eps.length = b.eps.length := by omega
    have hidx : b.rrAll % max 1 b.eps.length < b.eps.length := by
      rw [hmax]; exact Nat.mod_lt _ (by omega)
    obtain ⟨t, ht, hnt⟩ := hun _ hidx
    have hfalse : isHealthyHostIdx { b with rrAll := b.rrAll + 1 } now
        (b.rrAll % max 1 b.eps.length)
        = (false, { b with rrAll := b.rrAll + 1 }) :=
      isHealthy_false_of_unhealthy _ now _ t hidx ht hnt
    have hrec := ih { b with rrAll := b.rrAll + 1 } hlen hun
    simp only [allLoop, hfalse, hrec]
    have : b.rrAll + 1 + k = b.rrAll + (k + 1) := by omega
    rw [this]

/-- C3 (amended): over a non-empty endpoint list whose hosts are all inside
their unhealthy windows (no preferred DC), `currentBaseURL` still returns the
base URL of the endpoint at the current global round-robin cursor rather than
an error; but the cursor advances by the full list length during the failed
scan, so the returned index is unchanged and an immediately following
selection returns the same endpoint again — successive selections over a
fully-unhealthy fleet do not advance through the list (advancement between
attempts comes only from `nextHost`). -/
theorem currentBaseURL_all_unhealthy :
    ∀ (b : BalState) (now : Nat), 0 < b.eps.length →
      (∀ i, i < b.eps.length →
        ∃ t, b.unhealthyTil (hostOf (b.eps.getD i ⟨"", ""⟩).BaseURL) = some t ∧ now ≤ t) →
      currentBaseURL b now "" =
        ((b.eps.getD (b.rrAll % b.eps.length) ⟨"", ""⟩).BaseURL,
          { b with rrAll := b.rrAll + b.eps.length })
      ∧ (currentBaseURL ((currentBaseURL b now "").2) now "").1
          = (currentBaseURL b now "").1 := by
    have main : ∀ (b : BalState) (now : Nat), 0 < b.eps.length →
        (∀ i, i < b.eps.length →
          ∃ t, b.unhealthyTil (hostOf (b.eps.getD i ⟨"", ""⟩).BaseURL) = some t ∧ now ≤ t) →
        currentBaseURL b now "" =
          ((b.eps.getD (b.rrAll % b.eps.length) ⟨"", ""⟩).BaseURL,
            { b with rrAll := b.rrAll + b.eps.length }) := by
      intro b now hlen hun
      have hall := allLoop_all_unhealthy now b.eps.length b hlen hun
      simp [currentBaseURL, hall, hlen, Nat.add_mod_right]
    intro b now hlen hun
    refine ⟨main b now hlen hun, ?_⟩
    rw [main b now hlen hun]
    have hmain2 := main { b with rrAll := b.rrAll + b.eps.length } now hlen hun
    rw [hmain2]
    simp only [Nat.add_mod_right]


theorem currentBaseURL_all_unhealthy_witness :
    currentBaseURL balTwoDown 50 "" =
      ((balTwoDown.eps.getD (balTwoDown.rrAll % balTwoDown.eps.length) ⟨"", ""⟩).BaseURL,
        { balTwoDown with rrAll := balTwoDown.rrAll + balTwoDown.eps.length })
    ∧ (currentBaseURL ((currentBaseURL balTwoDown 50 "").2) 50 "").1
        = (currentBaseURL balTwoDown 50 "").1 := by
  apply currentBaseURL_all_unhealthy balTwoDown 50 (by decide)
  intro i hi
  have h2 : balTwoDown.eps.length = 2 := rfl
  rw [h2] at hi
  match i, hi with
  | 0, _ => exact ⟨100, by decide, by omega⟩
  | 1, _ => exact ⟨100, by decide, by omega⟩

/-- C3 counterexample: with two endpoints `http://a`, `http://b`, both hosts
unhealthy until t=100, at t=50 two successive selections both return
`http://a` — the second selection does not advance to `http://b`, refuting
"successive selections over a fully-unhealthy fleet advance through the list
in round-robin order". -/
theorem currentBaseURL_no_advance_counterexample :
    (currentBaseURL balTwoDown 50 "").1 = "http://a"
    ∧ (currentBaseURL ((currentBaseURL balTwoDown 50 "").2) 50 "").1 = "http://a"
    ∧ ¬ (currentBaseURL ((currentBaseURL balTwoDown 50 "").2) 50 "").1 = "http://b" :=
  ⟨by decide, by decide, by decide⟩


theorem splitSegs_ne_nil : ∀ l : List Char, splitSegs l ≠ [] := by
  intro l
  cases l with
  | nil => simp [splitSegs]
  | cons c rest =>
    by_cases hc : c = '/'
    · subst hc; simp [splitSegs]
    · simp only [splitSegs, if_neg hc]
      cases hs : splitSegs rest with
      | nil => simp
      | cons s ss => simp

theorem joinSegs_splitSegs : ∀ l : List Char, joinSegs (splitSegs l) = l := by
  intro l
  induction l with
  | nil => rfl
  | cons c rest ih =>
    by_cases hc : c = '/'
    · subst hc
      simp only [splitSegs, if_pos rfl]
      cases hs : splitSegs rest with
      | nil => exact absurd hs (splitSegs_ne_nil rest)
      | cons s ss =>
        simp only [joinSegs, List.nil_append]
        rw [← hs, ih]
    · simp only [splitSegs, if_neg hc]
      cases hs : splitSegs rest with
      | nil => exact absurd hs (splitSegs_ne_nil rest)
      | cons s ss =>
        rw [hs] at ih
        cases ss with
        | nil =>
          simp only [joinSegs] at ih ⊢
          rw [ih]
        | cons s2 ss2 =>
          simp only [joinSegs] at ih ⊢
          rw [← ih]
          simp [List.cons_append]

theorem dotSegs_no_dots : ∀ (l acc : List (List Char)),
    (∀ s ∈ l, s ≠ ['.'] ∧ s ≠ ['.', '.']) → dotSegs acc l = acc ++ l := by
  intro l
  induction l with
  | nil => intro acc _; simp [dotSegs]
  | cons s rest ih =>
    intro acc h
    have hs := h s (by simp)
    simp only [dotSegs, if_neg hs.1, if_neg hs.2]
    rw [ih (acc ++ [s]) (fun t ht => h t (by simp [ht]))]
    simp

theorem resolvePathL_rooted (base cs : List Char)
    (hnd : ∀ s ∈ splitSegs cs, s ≠ ['.'] ∧ s ≠ ['.', '.']) :
    resolvePathL base ('/' :: cs) = '/' :: cs := by
  have hlast : ¬ (((splitSegs cs).getLast?.getD []) = ['.']
      ∨ ((splitSegs cs).getLast?.getD []) = ['.', '.']) := by
    cases hg : (splitSegs cs).getLast? with
    | none => exact absurd (List.getLast?_eq_none_iff.mp hg) (splitSegs_ne_nil cs)
    | some s =>
      have hmem : s ∈ splitSegs cs := by
        obtain ⟨hne, heq⟩ :=
          List.mem_getLast?_eq_getLast (show s ∈ (splitSegs cs).getLast? from hg)
        rw [heq]
        exact List.getLast_mem hne
      have := hnd s hmem
      simp only [hg, Option.getD_some]
      rintro (h | h) <;> simp_all
  show ('/' :: joinSegs
      (if ((splitSegs cs).getLast?.getD []) = ['.']
          ∨ ((splitSegs cs).getLast?.getD []) = ['.', '.']
       then dotSegs [] (splitSegs cs) ++ [[]]
       else dotSegs [] (splitSegs cs))) = '/' :: cs
  rw [if_neg hlast, dotSegs_no_dots _ _ hnd, List.nil_append, joinSegs_splitSegs]


theorem prepareAttempt_req_eq (bal : BalState) (now : Nat) (dc : String)
    (req : GoRequest) : (prepareAttempt bal now dc req).req = req := by
  cases hb : req.body with
  | none =>
    simp only [prepareAttempt, hb]
    split
    · rfl
    · split <;> rfl
  | some stream =>
    cases hg : req.getBody with
    | some bs =>
      simp only [prepareAttempt, hb, hg]
      split
      · rfl
      · split <;> rfl
    | none =>
      have hre : (GoRequest.mk req.method req.url req.headers (some stream) none) = req := by
        rw [← hb, ← hg]
      simp only [prepareAttempt, hb, hg]
      split
      · exact hre
      · split <;> exact hre

theorem prepIterate_fst (now : Nat) (dc : String) :
    ∀ (n : Nat) (req : GoRequest) (bal : BalState),
      (prepIterate now dc n (req, bal)).1 = req := by
  intro n
  induction n with
  | zero => intro req bal; rfl
  | succ n ih =>
    intro req bal
    simp only [prepIterate]
    rw [prepareAttempt_req_eq]
    exact ih _ _

theorem prepareAttempt_attempt_body (bal : BalState) (now : Nat) (dc : String)
    (req : GoRequest) (data : List UInt8)
    (hg : req.getBody = none) (hb : req.body = some data) :
    ∀ a, (prepareAttempt bal now dc req).attempt = some a → a.body = some data := by
  intro a ha
  simp only [prepareAttempt, hb, hg] at ha
  split at ha
  · cases ha with
    | refl => rfl
  · split at ha
    · cases ha
    · cases ha with
      | refl => rfl

/-- C9: the caller's canonical request is never changed across attempt
preparations — after any number of `prepareAttempt` iterations its method,
URL, headers, body content and `GetBody` hook are exactly the original ones
(each attempt is a fresh value sharing only the buffered body snapshot). -/
theorem prepIterate_preserves_request :
    ∀ (now : Nat) (dc : String) (n : Nat) (req : GoRequest) (bal : BalState),
      (prepIterate now dc n (req, bal)).1 = req :=
  fun now dc n req bal => prepIterate_fst now dc n req bal

theorem prepareAttempt_attempt_body_hook (bal : BalState) (now : Nat) (dc : String)
    (req : GoRequest) (bs stream : List UInt8)
    (hg : req.getBody = some bs) (hb : req.body = some stream) :
    ∀ a, (prepareAttempt bal now dc req).attempt = some a → a.body = some bs := by
  intro a ha
  simp only [prepareAttempt, hb, hg] at ha
  split at ha
  · cases ha with
    | refl => rfl
  · split at ha
    · cases ha
    · cases ha with
      | refl => rfl

/-- C6 (amended): for a request with a non-empty body and a nil `GetBody`
hook, the body stream is buffered on the first preparation and every
preparation produces a fresh reader over the same buffered bytes, so every
attempt's body is exactly the buffered content; when `GetBody` is set the
body is never buffered — every preparation instead calls the hook — and
every attempt's body is exactly the hook's bytes.  In both cases all retried
attempts of the same logical call send byte-identical bodies. -/
theorem prepareAttempt_body_replay :
    ∀ (bal : BalState) (now : Nat) (dc : String) (req : GoRequest) (data : List UInt8),
      req.body = some data → data ≠ [] →
      ∀ n,
        (prepIterate now dc n (req, bal)).1.body = some data
        ∧ (req.getBody = none →
            ∀ a, (prepareAttempt (prepIterate now dc n (req, bal)).2 now dc
                (prepIterate now dc n (req, bal)).1).attempt = some a →
              a.body = some data)
        ∧ (∀ bs, req.getBody = some bs →
            ∀ a, (prepareAttempt (prepIterate now dc n (req, bal)).2 now dc
                (prepIterate now dc n (req, bal)).1).attempt = some a →
              a.body = some bs) := by
  intro bal now dc req data hb _hne n
  rw [prepIterate_fst]
  exact ⟨hb,
    fun hg => prepareAttempt_attempt_body _ now dc req data hg hb,
    fun bs hg => prepareAttempt_attempt_body_hook _ now dc req bs data hg hb⟩

theorem prepareAttempt_body_replay_witness :
    ((prepIterate 0 "" 2 (reqBody, newBalancer [⟨"http://h", ""⟩])).1.body = some [1, 2]
      ∧ ∀ a, (prepareAttempt (prepIterate 0 "" 2 (reqBody, newBalancer [⟨"http://h", ""⟩])).2
          0 "" (prepIterate 0 "" 2 (reqBody, newBalancer [⟨"http://h", ""⟩])).1).attempt
          = some a → a.body = some [1, 2])
    ∧ (∀ a, (prepareAttempt (prepIterate 0 "" 1 (reqHook, newBalancer [])).2
          0 "" (prepIterate 0 "" 1 (reqHook, newBalancer [])).1).attempt
          = some a → a.body = some [1, 2]) :=
  ⟨⟨(prepareAttempt_body_replay (newBalancer [⟨"http://h", ""⟩]) 0 "" reqBody
        [1, 2] rfl (by decide) 2).1,
    (prepareAttempt_body_replay (newBalancer [⟨"http://h", ""⟩]) 0 "" reqBody
        [1, 2] rfl (by decide) 2).2.1 rfl⟩,
   (prepareAttempt_body_replay (newBalancer []) 0 "" reqHook
        [9] rfl (by decide) 1).2.2 [1, 2] rfl⟩

/-- C6 counterexample: a request whose `GetBody` hook is set (the case
`http.NewRequest` produces automatically for `bytes.Reader`, `bytes.Buffer`
and `strings.Reader` bodies) is never buffered: `prepareAttempt`
(src/client/client.go:165-168) calls the hook instead of reading the body
stream, so the prepared attempt carries the hook's bytes `[1, 2]` and not
the body stream's bytes `[9]` — "the body is buffered into memory on the
first attempt preparation, and every subsequent preparation produces a fresh
reader over the same buffered bytes" is false at this request. -/
theorem prepareAttempt_no_buffering_counterexample :
    reqHook.body = some [9]
    ∧ ((prepareAttempt (newBalancer []) 0 "" reqHook).attempt.map (fun a => a.body))
        = some (some [1, 2])
    ∧ ¬ ((prepareAttempt (newBalancer []) 0 "" reqHook).attempt.map (fun a => a.body))
        = some (some [9]) :=
  ⟨rfl, by decide, by decide⟩

theorem prepareAttempt_absolute (bal : BalState) (now : Nat) (dc : String)
    (req : GoRequest) (habs : req.url.scheme ≠ "") :
    (prepareAttempt bal now dc req).err = none
    ∧ (prepareAttempt bal now dc req).bal = bal
    ∧ ∃ a, (prepareAttempt bal now dc req).attempt = some a ∧ a.url = req.url := by
  cases hb : req.body with
  | none => simp [prepareAttempt, hb, habs]
  | some stream =>
    cases hg : req.getBody with
    | some bs => simp [prepareAttempt, hb, hg, habs]
    | none => simp [prepareAttempt, hb, hg, habs]

/-- C10: for a request with an absolute URL, `prepareAttempt` succeeds on
every attempt of the call — it never produces the "no endpoints configured"
error (which requires the relative branch) and never selects an endpoint,
even when the endpoint list is empty. -/
theorem absolute_url_no_endpoint_error :
    ∀ (now : Nat) (dc : String) (n : Nat) (req : GoRequest) (bal : BalState),
      req.url.scheme ≠ "" →
      (prepareAttempt (prepIterate now dc n (req, bal)).2 now dc
          (prepIterate now dc n (req, bal)).1).err = none
      ∧ (prepareAttempt (prepIterate now dc n (req, bal)).2 now dc
          (prepIterate now dc n (req, bal)).1).bal = (prepIterate now dc n (req, bal)).2 := by
  intro now dc n req bal habs
  rw [prepIterate_fst]
  have h := prepareAttempt_absolute (prepIterate now dc n (req, bal)).2 now dc req habs
  exact ⟨h.1, h.2.1⟩


theorem absolute_url_no_endpoint_error_witness :
    (prepareAttempt (prepIterate 0 "" 1 (reqAbs, newBalancer [])).2 0 ""
        (prepIterate 0 "" 1 (reqAbs, newBalancer [])).1).err = none
    ∧ (prepareAttempt (prepIterate 0 "" 1 (reqAbs, newBalancer [])).2 0 ""
        (prepIterate 0 "" 1 (reqAbs, newBalancer [])).1).bal
        = (prepIterate 0 "" 1 (reqAbs, newBalancer [])).2 :=
  absolute_url_no_endpoint_error 0 "" 1 reqAbs (newBalancer []) (by decide)

theorem prepareAttempt_relative (bal : BalState) (now : Nat) (dc : String)
    (req : GoRequest) (hrel : req.url.scheme = "")
    (hbase : (currentBaseURL bal now dc).1 ≠ "") :
    ∃ a, (prepareAttempt bal now dc req).attempt = some a
      ∧ a.url = resolveReference (parseURL (currentBaseURL bal now dc).1)
          ⟨"", "", req.url.path, req.url.rawPath, req.url.rawQuery⟩ := by
  cases hb : req.body with
  | none => simp [prepareAttempt, hb, hrel, hbase]
  | some stream =>
    cases hg : req.getBody with
    | some bs => simp [prepareAttempt, hb, hg, hrel, hbase]
    | none => simp [prepareAttempt, hb, hg, hrel, hbase]

theorem resolveReference_rooted (u : URL) (p rp q : String) (cs : List Char)
    (hp : p.data = '/' :: cs)
    (hnd : ∀ s ∈ splitSegs cs, s ≠ ['.'] ∧ s ≠ ['.', '.']) :
    (resolveReference u ⟨"", "", p, rp, q⟩).scheme = u.scheme
    ∧ (resolveReference u ⟨"", "", p, rp, q⟩).host = u.host
    ∧ (resolveReference u ⟨"", "", p, rp, q⟩).path = p
    ∧ (resolveReference u ⟨"", "", p, rp, q⟩).rawPath = ""
    ∧ (resolveReference u ⟨"", "", p, rp, q⟩).rawQuery = q := by
  refine ⟨rfl, rfl, ?_, rfl, ?_⟩
  · show resolvePath u.path p = p
    unfold resolvePath
    rw [hp, resolvePathL_rooted _ _ hnd]
    cases p with
    | mk d => simp at hp; rw [hp]
  · show (if p = "" ∧ q = "" then u.rawQuery else q) = q
    rw [if_neg]
    rintro ⟨hpe, -⟩
    rw [hpe] at hp
    simp at hp

/-- C7 (amended): an absolute request URL is used unchanged and no endpoint
is selected; a relative URL is resolved against the selected base URL,
taking the base's scheme and host, and — whenever the request path is rooted
with no `.`/`..` segments and needs no escaping (empty raw path) — the
request's path, raw path and raw query are preserved exactly.  (A non-rooted
path is instead merged against the base URL's path, per RFC 3986.) -/
theorem prepareAttempt_url_resolution :
    ∀ (bal : BalState) (now : Nat) (dc : String) (req : GoRequest),
      (req.url.scheme ≠ "" →
        (prepareAttempt bal now dc req).bal = bal
        ∧ ∃ a, (prepareAttempt bal now dc req).attempt = some a ∧ a.url = req.url)
      ∧ (req.url.scheme = "" → (currentBaseURL bal now dc).1 ≠ "" →
          ∃ a, (prepareAttempt bal now dc req).attempt = some a
            ∧ a.url = resolveReference (parseURL (currentBaseURL bal now dc).1)
                ⟨"", "", req.url.path, req.url.rawPath, req.url.rawQuery⟩
            ∧ ((∃ cs, req.url.path.data = '/' :: cs
                  ∧ ∀ s ∈ splitSegs cs, s ≠ ['.'] ∧ s ≠ ['.', '.']) →
                a.url.scheme = (parseURL (currentBaseURL bal now dc).1).scheme
                ∧ a.url.host = (parseURL (currentBaseURL bal now dc).1).host
                ∧ a.url.path = req.url.path
                ∧ a.url.rawPath = ""
                ∧ a.url.rawQuery = req.url.rawQuery)) := by
  intro bal now dc req
  constructor
  · intro habs
    have h := prepareAttempt_absolute bal now dc req habs
    exact ⟨h.2.1, h.2.2⟩
  · intro hrel hbase
    obtain ⟨a, ha, hurl⟩ := prepareAttempt_relative bal now dc req hrel hbase
    refine ⟨a, ha, hurl, ?_⟩
    rintro ⟨cs, hp, hnd⟩
    have hr := resolveReference_rooted (parseURL (currentBaseURL bal now dc).1)
      req.url.path req.url.rawPath req.url.rawQuery cs hp hnd
    rw [hurl]
    exact ⟨hr.1, hr.2.1, hr.2.2.1, hr.2.2.2.1, hr.2.2.2.2⟩


theorem prepareAttempt_url_resolution_witness :
    ∃ a, (prepareAttempt (newBalancer [⟨"http://h/api", ""⟩]) 0 "" reqRel).attempt = some a
      ∧ a.url = resolveReference
          (parseURL (currentBaseURL (newBalancer [⟨"http://h/api", ""⟩]) 0 "").1)
          ⟨"", "", reqRel.url.path, reqRel.url.rawPath, reqRel.url.rawQuery⟩
      ∧ ((∃ cs, reqRel.url.path.data = '/' :: cs
            ∧ ∀ s ∈ splitSegs cs, s ≠ ['.'] ∧ s ≠ ['.', '.']) →
          a.url.scheme = (parseURL (currentBaseURL (newBalancer [⟨"http://h/api", ""⟩]) 0 "").1).scheme
          ∧ a.url.host = (parseURL (currentBaseURL (newBalancer [⟨"http://h/api", ""⟩]) 0 "").1).host
          ∧ a.url.path = reqRel.url.path
          ∧ a.url.rawPath = ""
          ∧ a.url.rawQuery = reqRel.url.rawQuery) :=
  (prepareAttempt_url_resolution (newBalancer [⟨"http://h/api", ""⟩]) 0 "" reqRel).2
    rfl (by decide)


/-- C7 counterexample: with base URL `http://h/api/v` and relative request
path `"x"`, the prepared attempt's path is `"/api/x"` (the reference is
merged against the base path), not the request's path `"x"` — "path
preserved exactly" fails for non-rooted paths. -/
theorem prepareAttempt_path_not_preserved_counterexample :
    ((prepareAttempt (newBalancer [⟨"http://h/api/v", ""⟩]) 0 "" reqNonRooted).attempt.map
        (fun a => a.url.path)) = some "/api/x"
    ∧ reqNonRooted.url.path = "x"
    ∧ ¬ ((prepareAttempt (newBalancer [⟨"http://h/api/v", ""⟩]) 0 "" reqNonRooted).attempt.map
        (fun a => a.url.path)) = some reqNonRooted.url.path :=
  ⟨by decide, rfl, by decide⟩

end Httplib
